import Mathlib

/-!
Verification of the ICD-10 data-collection script (`src/main.py`).

The script recursively crawls the WHO ICD-10 catalog: `process_icd_code`
fetches a node's JSON payload, saves it to a per-code file, recurses into
the URLs listed under its `child` field, and finally sleeps for the
configured delay.  `get_root_codes` obtains the starting codes from the
empty-code listing, falling back to a fixed list of 22 chapter codes.

The development below is a shallow embedding: the remote catalog and the
filesystem's disposition to fail are an explicit environment, and the run
is a pure function from that environment (plus a recursion-depth fuel) to
the list of observable events it performs.
-/

namespace ICD10

/-- Decoded JSON values, as returned by `response.json()` in
`fetch_icd_data`.  Object fields are kept as an association list (decoded
JSON objects have pairwise-distinct keys; lookups take the first binding). -/
inductive Json where
  | null
  | bool (b : Bool)
  | num (n : Int)
  | str (s : String)
  | arr (elems : List Json)
  | obj (fields : List (String × Json))

/-- Python truthiness of a decoded JSON value, as tested by `if data:` in
`process_icd_code`: empty containers, empty strings, zero, `False` and
`None` are falsy. -/
def truthy : Json → Bool
  | .null => false
  | .bool b => b
  | .num n => n != 0
  | .str s => s != ""
  | .arr xs => !xs.isEmpty
  | .obj fields => !fields.isEmpty

/-- Dictionary key lookup (`data['child']` on a `dict`): first binding of
the key, if any. -/
def lookupField (fields : List (String × Json)) (key : String) : Option Json :=
  match fields with
  | [] => none
  | (k, v) :: rest => if k = key then some v else lookupField rest key

/-- Whether `p` is a leading segment of `s` (character lists, used for the
Python substring test below). -/
def leadsWith : List Char → List Char → Bool
  | [], _ => true
  | _ :: _, [] => false
  | p :: ps, c :: cs => p == c && leadsWith ps cs

/-- Whether `pat` occurs contiguously inside `s` (Python `pat in s` for
strings). -/
def infixOf (pat : List Char) : List Char → Bool
  | [] => pat.isEmpty
  | c :: rest => leadsWith pat (c :: rest) || infixOf pat rest

/-- Outcome of the source's `if 'child' in data: ... data['child']` step on
a payload. `error` models an uncaught `TypeError` (the membership test on a
number/boolean/`None`, or the subscript `data['child']` on a string or
list), which would crash the Python process. -/
inductive ChildLookup where
  | absent
  | value (v : Json)
  | error

/-- Whether a JSON list contains the string `"child"` as an element
(Python `'child' in data` on a list: `==` holds only against equal
strings). -/
def hasChildStr : List Json → Bool
  | [] => false
  | .str s :: rest => s == "child" || hasChildStr rest
  | _ :: rest => hasChildStr rest

/-- `'child' in data` followed by `data['child']`, with Python semantics
per payload shape: on a dict it is key lookup; on a string, substring test
(a hit then crashes on the subscript); on a list, element membership (a hit
then crashes on the subscript); on a number, boolean or `None` the
membership test itself raises `TypeError`. -/
def childLookup (data : Json) : ChildLookup :=
  match data with
  | .obj fields =>
    match lookupField fields "child" with
    | some v => .value v
    | none => .absent
  | .str s => if infixOf "child".data s.data then .error else .absent
  | .arr xs => if hasChildStr xs then .error else .absent
  | .null => .error
  | .bool _ => .error
  | .num _ => .error

/-- Converts a JSON value to the string the source's `url.split('/')`
expects; a non-string raises `AttributeError` in the source. -/
def asString : Json → Option String
  | .str s => some s
  | _ => none

/-- All elements of a JSON list as strings, or `none` if one is not a
string. -/
def asStrings : List Json → Option (List String)
  | [] => some []
  | x :: xs =>
    match asString x with
    | none => none
    | some s =>
      match asStrings xs with
      | none => none
      | some ss => some (s :: ss)

/-- Python iteration over the `child` value, yielding the strings fed to
`url.split('/')`: a list yields its elements (a non-string element makes
the subsequent `split` raise, modelled as the same crash `none`), a string
yields its one-character substrings, a dict yields its keys; numbers,
booleans and `None` are not iterable (`none` = `TypeError`). -/
def iterStrings (v : Json) : Option (List String) :=
  match v with
  | .arr xs => asStrings xs
  | .str s => some (s.data.map fun c => String.mk [c])
  | .obj fields => some (fields.map Prod.fst)
  | _ => none

/-- Value of a hexadecimal digit character, if it is one. -/
def hexDigit? (c : Char) : Option Nat :=
  if '0' ≤ c ∧ c ≤ '9' then some (c.toNat - '0'.toNat)
  else if 'a' ≤ c ∧ c ≤ 'f' then some (c.toNat - 'a'.toNat + 10)
  else if 'A' ≤ c ∧ c ≤ 'F' then some (c.toNat - 'A'.toNat + 10)
  else none

/-- Percent-decoding on character lists: `%XY` with two hex digits decodes
to the character with that code, anything else is kept verbatim.  This
models `urllib.parse.unquote` for single-byte escapes (multi-byte UTF-8
escape sequences do not occur in the crawled references).  The `Nat`
argument is structural-recursion fuel: every step consumes at least one
character, so a fuel of the list's length always suffices and the `0` case
is unreachable from `unquoteChars`. -/
def unquoteAux : Nat → List Char → List Char
  | 0, rest => rest
  | _ + 1, [] => []
  | n + 1, '%' :: cs =>
    match cs with
    | a :: b :: rest =>
      match hexDigit? a, hexDigit? b with
      | some ha, some hb => Char.ofNat (16 * ha + hb) :: unquoteAux n rest
      | _, _ => '%' :: unquoteAux n cs
    | _ => '%' :: unquoteAux n cs
  | n + 1, c :: cs => c :: unquoteAux n cs

/-- Percent-decoding of a character list, with enough fuel for the whole
list. -/
def unquoteChars (cs : List Char) : List Char := unquoteAux cs.length cs

/-- `urllib.parse.unquote` (single-byte escapes). -/
def unquote (s : String) : String := ⟨unquoteChars s.data⟩

/-- Python `s.split(sep)` for a single-character separator, on character
lists: the (always non-empty) list of separator-delimited groups; the empty
string yields `[""]`, like Python. -/
def splitOnChar (sep : Char) : List Char → List (List Char)
  | [] => [[]]
  | c :: rest =>
    let groups := splitOnChar sep rest
    if c = sep then [] :: groups
    else
      match groups with
      | [] => [[c]]
      | g :: gs => (c :: g) :: gs

/-- Python `url.split('/')`. -/
def splitSlash (url : String) : List String :=
  (splitOnChar '/' url.data).map String.mk

/-- `unquote(child_url.split('/')[-1])` from `process_icd_code` line 125:
the percent-decoded final path segment of a child-reference URL (a
`split` result is never empty, so the default is unreachable). -/
def childCode (url : String) : String :=
  unquote ((splitSlash url).getLastD "")

/-- Python `s.replace(old, new)` for single-character pattern and
replacement: every occurrence of `old` becomes `new`. -/
def replaceChar (s : String) (old new : Char) : String :=
  ⟨s.data.map fun c => if c = old then new else c⟩

/-- The storage key derived in `save_icd_data` line 106:
`code.replace(".", "_").replace("/", "_")`. -/
def sanitizeCode (code : String) : String :=
  replaceChar (replaceChar code '.' '_') '/' '_'

/-- The file name `f'icd10_{...}.json'` built in `save_icd_data`. -/
def icdFileName (code : String) : String :=
  "icd10_" ++ sanitizeCode code ++ ".json"

/-- `os.path.join(dir, file)` for a relative `file` (the only shape the
source produces): empty `dir` yields `file`, a trailing separator is not
doubled, otherwise a `/` is inserted. -/
def joinPath (dir file : String) : String :=
  if dir = "" then file
  else if dir.data.getLastD ' ' = '/' then dir ++ file
  else dir ++ "/" ++ file

/-- Full path of the file `save_icd_data` writes for `code`. -/
def savePath (dir code : String) : String :=
  joinPath dir (icdFileName code)

/-- The crawl's environment.  `fetch code = none` models `fetch_icd_data`
returning `None` (any `requests.RequestException`: transport error,
non-success status raised by `raise_for_status`, or an undecodable body).
`saveFails code = true` models an `IOError` raised inside the `try` block
of `save_icd_data` (the open/write of that code's file). -/
structure Env where
  fetch : String → Option Json
  saveFails : String → Bool

/-- Observable events of a run, in order: the entry of `process_icd_code`
for a code (its fetch attempt), the error logged by `fetch_icd_data`, a
successful write of a payload, the error logged by `save_icd_data`'s
`except`, and the `time.sleep(config.delay)` ending `process_icd_code`. -/
inductive Event where
  | visit (code : String)
  | fetchError (code : String)
  | save (code : String) (data : Json)
  | saveError (code : String)
  | sleep (code : String)

/-- Sequential processing of a list of codes by `f`, concatenating the
event lists; `none` (crash or fuel exhaustion) propagates and aborts the
remaining iterations, as an uncaught exception would. -/
def seqProcess (f : String → Option (List Event)) : List String → Option (List Event)
  | [] => some []
  | c :: rest =>
    match f c with
    | none => none
    | some evts =>
      match seqProcess f rest with
      | none => none
      | some evts' => some (evts ++ evts')

/-- `process_icd_code(code, config)` (lines 115–128), as a function of the
environment and a recursion-depth fuel.  `none` models a run that does not
complete normally: either the recursion would exceed the given depth (in
the source: unbounded recursion / `RecursionError`) or an uncaught
exception is raised while reading the `child` entry.  A `some` result is
the exact event sequence: the visit, then — when the payload is truthy —
the save attempt, the children in listing order (each fully processed,
depth-first), and finally the node's own sleep; a falsy or failed fetch
yields no save and no children, but still the sleep. -/
def process (env : Env) : Nat → String → Option (List Event)
  | 0 => fun _ => none
  | fuel + 1 => fun code =>
    match env.fetch code with
    | none => some [.visit code, .fetchError code, .sleep code]
    | some data =>
      if truthy data then
        let saveEvt : Event := if env.saveFails code then .saveError code else .save code data
        match childLookup data with
        | .absent => some [.visit code, saveEvt, .sleep code]
        | .error => none
        | .value v =>
          match iterStrings v with
          | none => none
          | some urls =>
            match seqProcess (process env fuel) (urls.map childCode) with
            | none => none
            | some childEvts => some (.visit code :: saveEvt :: (childEvts ++ [.sleep code]))
      else some [.visit code, .sleep code]

/-- The child codes `process_icd_code` recurses into from `code`: the
decoded final path segments of the payload's `child` URLs, when the fetch
succeeded, the payload is truthy and the `child` entry is a readable
iterable; otherwise no children are visited. -/
def children (env : Env) (code : String) : List String :=
  match env.fetch code with
  | none => []
  | some data =>
    if truthy data then
      match childLookup data with
      | .value v =>
        match iterStrings v with
        | some urls => urls.map childCode
        | none => []
      | _ => []
    else []

/-- The 22 hardcoded fallback chapter codes of `get_root_codes`. -/
def fallbackRootCodes : List String :=
  ["I", "II", "III", "IV", "V", "VI", "VII", "VIII", "IX", "X", "XI",
   "XII", "XIII", "XIV", "XV", "XVI", "XVII", "XVIII", "XIX", "XX",
   "XXI", "XXII"]

/-- `get_root_codes(token)` (lines 131–137): fetch the empty-code root
listing; if the result is a dict containing `'child'`, decode each child
URL, otherwise return the fallback list.  `none` models the uncaught
exception the comprehension would raise on an ill-typed `child` value. -/
def get_root_codes (env : Env) : Option (List String) :=
  match env.fetch "" with
  | some (.obj fields) =>
    match lookupField fields "child" with
    | some v => (iterStrings v).map (List.map childCode)
    | none => some fallbackRootCodes
  | _ => some fallbackRootCodes

/-- The crawl driven by `main` (lines 151–155): obtain the root codes, then
run `process_icd_code` over each root in order. -/
def mainEvents (env : Env) (fuel : Nat) : Option (List Event) :=
  match get_root_codes env with
  | none => none
  | some roots => seqProcess (process env fuel) roots

/-- The file writes a run performs, in order: each successful save becomes
a (path, payload) pair.  The bytes on disk are the fixed serialization
(`json.dump(..., ensure_ascii=False, indent=2)`) of the payload, a
deterministic function of it, so payload equality captures byte equality. -/
def writesOf (dir : String) (evts : List Event) : List (String × Json) :=
  evts.filterMap fun e =>
    match e with
    | .save code data => some (savePath dir code, data)
    | _ => none

/-- Filesystem contents: path ↦ stored payload. -/
abbrev FS := String → Option Json

/-- The empty output directory. -/
def emptyFS : FS := fun _ => none

/-- One write: `open(filename, 'w')` truncates and overwrites. -/
def setFile (fs : FS) (path : String) (data : Json) : FS :=
  fun p => if p = path then some data else fs p

/-- Replaying a run's writes onto a filesystem. -/
def applyWrites (fs : FS) (ws : List (String × Json)) : FS :=
  ws.foldl (fun acc w => setFile acc w.1 w.2) fs

/-- The codes of the sleep events of a trace, in order. -/
def sleepsOf (evts : List Event) : List String :=
  evts.filterMap fun e =>
    match e with
    | .sleep c => some c
    | _ => none

/-- Number of visit events for code `c` in a trace (fetch attempts for
`c`). -/
def countVisits (c : String) : List Event → Nat
  | [] => 0
  | .visit c' :: rest => (if c' = c then 1 else 0) + countVisits c rest
  | _ :: rest => countVisits c rest

/-- Number of sleep events for code `c` in a trace (rate-limiter waits at
the end of processing `c`). -/
def countSleeps (c : String) : List Event → Nat
  | [] => 0
  | .sleep c' :: rest => (if c' = c then 1 else 0) + countSleeps c rest
  | _ :: rest => countSleeps c rest

/-- The most recent write to path `p` in a write list, if any. -/
def lastWrite (ws : List (String × Json)) (p : String) : Option Json :=
  match ws with
  | [] => none
  | (q, v) :: rest =>
    match lastWrite rest p with
    | some v' => some v'
    | none => if q = p then some v else none

/-- Codes reachable from `root` along the child-reference graph the
traversal follows. -/
inductive Reaches (env : Env) (root : String) : String → Prop
  | refl : Reaches env root root
  | step {b c : String} : Reaches env root b → c ∈ children env b →
      Reaches env root c

/-- The remote data is well formed: every truthy payload's `child` step
neither raises on the membership test nor on iterating the entry (so the
source never crashes reading child references). -/
def WellFormed (env : Env) : Prop :=
  ∀ code data, env.fetch code = some data → truthy data = true →
    childLookup data ≠ .error ∧
    ∀ v, childLookup data = .value v → (iterStrings v).isSome = true

/-- The child-reference paths from `r` to `c` of length at most the fuel:
each path is the sequence of codes from `r` down to `c`, following the
child lists in order; a node whose child list names the same code twice
yields two paths (one per reference followed), matching the traversal's
duplicated visit. -/
def pathsTo (env : Env) : Nat → String → String → List (List String)
  | 0 => fun _ _ => []
  | fuel + 1 => fun r c =>
    (if r = c then [[r]] else []) ++
    ((children env r).map fun ch => (pathsTo env fuel ch c).map (r :: ·)).flatten

/-! Concrete environments used to evaluate the specification's scenarios. -/

/-- Root-listing payload of the spec's end-to-end scenario. -/
def dataRoot : Json :=
  .obj [("child", .arr [.str "https://host/path/A", .str "https://host/path/B"])]

/-- Payload of code `A` in the spec's end-to-end scenario. -/
def dataA : Json :=
  .obj [("child", .arr [.str "https://host/path/A.1"])]

/-- The spec's end-to-end scenario: the root listing yields children `A`
and `B`, code `A` has child `A.1`, and codes `A.1` and `B` return the
empty JSON object `{}`. -/
def scenarioEnv : Env :=
  { fetch := fun code =>
      if code = "" then some dataRoot
      else if code = "A" then some dataA
      else if code = "A.1" then some (.obj [])
      else if code = "B" then some (.obj [])
      else none
    saveFails := fun _ => false }

/-- The full event trace of the end-to-end scenario run (fuel 3 completes
it). -/
def scenarioTrace : List Event :=
  [.visit "A", .save "A" dataA, .visit "A.1", .sleep "A.1", .sleep "A",
   .visit "B", .sleep "B"]

/-- The synthetic tree of the spec's post-order throttling scenario:
`root` has children `A` and `B`, `A` has children `A1` and `A2`, and `B`,
`A1`, `A2` are leaves with truthy payloads. -/
def postEnv : Env :=
  { fetch := fun code =>
      if code = "root" then some (.obj [("child", .arr [.str "h/A", .str "h/B"])])
      else if code = "A" then some (.obj [("child", .arr [.str "h/A1", .str "h/A2"])])
      else if code = "A1" then some (.obj [("title", .str "a1")])
      else if code = "A2" then some (.obj [("title", .str "a2")])
      else if code = "B" then some (.obj [("title", .str "b")])
      else none
    saveFails := fun _ => false }

/-- The fetch-failure-isolation scenario: sibling `A` (with child `A1`)
succeeds, sibling `B`'s fetch fails. -/
def isoEnv : Env :=
  { fetch := fun code =>
      if code = "A" then some (.obj [("child", .arr [.str "h/A1"])])
      else if code = "A1" then some (.obj [("title", .str "x")])
      else none
    saveFails := fun _ => false }

/-- The save-failure-isolation scenario: the write for `X` raises an
`IOError`, while `X`'s child `X1` is intact. -/
def saveFailEnv : Env :=
  { fetch := fun code =>
      if code = "X" then some (.obj [("child", .arr [.str "h/X1"])])
      else if code = "X1" then some (.obj [("title", .str "y")])
      else none
    saveFails := fun code => code = "X" }

/-- A root listing with a decodable child-reference list (the second URL
carries a percent-escape). -/
def rootEnvList : Env :=
  { fetch := fun code =>
      if code = "" then some (.obj [("child", .arr [.str "h/I", .str "h/II%2E5"])])
      else none
    saveFails := fun _ => false }

/-- Every fetch fails. -/
def rootEnvNone : Env :=
  { fetch := fun _ => none
    saveFails := fun _ => false }

/-- The root listing decodes to a plain string (not a dict). -/
def rootEnvStr : Env :=
  { fetch := fun code => if code = "" then some (.str "oops") else none
    saveFails := fun _ => false }

/-- The root listing is a dict without a `child` entry. -/
def rootEnvNoChild : Env :=
  { fetch := fun code =>
      if code = "" then some (.obj [("title", .str "t")]) else none
    saveFails := fun _ => false }

/-- Code `E` fetches successfully but returns the empty object `{}`. -/
def emptyPayloadEnv : Env :=
  { fetch := fun code => if code = "E" then some (.obj []) else none
    saveFails := fun _ => false }

/-- First colliding payload. -/
def dOne : Json := .obj [("n", .str "1")]

/-- Second colliding payload. -/
def dTwo : Json := .obj [("n", .str "2")]

/-- A parent whose two children decode to the distinct codes `A.1` and
`A/1` (the slash arrives percent-encoded as `%2F`), which sanitize to the
same storage file name. -/
def collideEnv : Env :=
  { fetch := fun code =>
      if code = "P" then
        some (.obj [("child", .arr [.str "h/A.1", .str "h/A%2F1"])])
      else if code = "A.1" then some dOne
      else if code = "A/1" then some dTwo
      else none
    saveFails := fun _ => false }

/-- A self-referential node: its payload lists itself as its only child. -/
def cycData : Json := .obj [("child", .arr [.str "A"])]

/-- An environment whose child-reference graph has a cycle (code `A`
refers to itself). -/
def cycEnv : Env :=
  { fetch := fun code => if code = "A" then some cycData else none
    saveFails := fun _ => false }

/-- A single truthy leaf `R` with no children. -/
def leafEnv : Env :=
  { fetch := fun code =>
      if code = "R" then some (.obj [("title", .str "r")]) else none
    saveFails := fun _ => false }


/-! General lemmas about the traversal. -/

lemma countVisits_append (c : String) (l l' : List Event) :
    countVisits c (l ++ l') = countVisits c l + countVisits c l' := by
  induction l with
  | nil => simp [countVisits]
  | cons e rest ih => cases e <;> (simp [countVisits, ih]; try omega)

lemma countSleeps_append (c : String) (l l' : List Event) :
    countSleeps c (l ++ l') = countSleeps c l + countSleeps c l' := by
  induction l with
  | nil => simp [countSleeps]
  | cons e rest ih => cases e <;> (simp [countSleeps, ih]; try omega)

/-- One-step unfolding of `process` at positive fuel. -/
lemma process_succ (env : Env) (fuel : Nat) (code : String) :
    process env (fuel + 1) code =
      match env.fetch code with
      | none => some [.visit code, .fetchError code, .sleep code]
      | some data =>
        if truthy data then
          match childLookup data with
          | .absent =>
            some [.visit code,
              if env.saveFails code then .saveError code else .save code data,
              .sleep code]
          | .error => none
          | .value v =>
            match iterStrings v with
            | none => none
            | some urls =>
              match seqProcess (process env fuel) (urls.map childCode) with
              | none => none
              | some childEvts =>
                some (.visit code ::
                  (if env.saveFails code then .saveError code else .save code data) ::
                  (childEvts ++ [.sleep code]))
        else some [.visit code, .sleep code] := rfl

lemma seqProcess_cons_some (f : String → Option (List Event)) (x : String)
    (rest : List String) (evts : List Event)
    (h : seqProcess f (x :: rest) = some evts) :
    ∃ e e', f x = some e ∧ seqProcess f rest = some e' ∧ evts = e ++ e' := by
  simp only [seqProcess] at h
  cases hx : f x with
  | none => rw [hx] at h; cases h
  | some e =>
    rw [hx] at h
    cases hrest : seqProcess f rest with
    | none => rw [hrest] at h; cases h
    | some e' =>
      rw [hrest] at h
      exact ⟨e, e', rfl, rfl, by cases h; rfl⟩

lemma seqProcess_rel (κ₁ κ₂ : List Event → Nat)
    (hκ₁ : ∀ l l', κ₁ (l ++ l') = κ₁ l + κ₁ l')
    (hκ₂ : ∀ l l', κ₂ (l ++ l') = κ₂ l + κ₂ l')
    (f : String → Option (List Event)) :
    ∀ (cs : List String) (evts : List Event), seqProcess f cs = some evts →
      (∀ x ∈ cs, ∀ e, f x = some e → κ₁ e = κ₂ e) →
      κ₁ evts = κ₂ evts := by
  intro cs
  induction cs with
  | nil =>
    intro evts h _
    simp only [seqProcess] at h
    cases h
    have h1 := hκ₁ [] []
    have h2 := hκ₂ [] []
    simp at h1 h2
    omega
  | cons x rest ih =>
    intro evts h hrel
    obtain ⟨e, e', hx, hrest, rfl⟩ := seqProcess_cons_some f x rest evts h
    rw [hκ₁, hκ₂]
    rw [hrel x (by simp) e hx,
        ih e' hrest fun y hy => hrel y (by simp [hy])]

lemma seqProcess_sum (κ : List Event → Nat)
    (hκ : ∀ l l', κ (l ++ l') = κ l + κ l')
    (f : String → Option (List Event)) (g : String → Nat) :
    ∀ (cs : List String) (evts : List Event), seqProcess f cs = some evts →
      (∀ x ∈ cs, ∀ e, f x = some e → κ e = g x) →
      κ evts = (cs.map g).sum := by
  intro cs
  induction cs with
  | nil =>
    intro evts h _
    simp only [seqProcess] at h
    cases h
    have h0 := hκ [] []
    simp at h0 ⊢
    omega
  | cons x rest ih =>
    intro evts h hg
    obtain ⟨e, e', hx, hrest, rfl⟩ := seqProcess_cons_some f x rest evts h
    rw [hκ, hg x (by simp) e hx, ih e' hrest fun y hy => hg y (by simp [hy])]
    simp

lemma seqProcess_isSome (f : String → Option (List Event)) :
    ∀ cs : List String, (∀ x ∈ cs, (f x).isSome = true) →
      (seqProcess f cs).isSome = true := by
  intro cs
  induction cs with
  | nil => intro _; rfl
  | cons x rest ih =>
    intro h
    obtain ⟨e, he⟩ := Option.isSome_iff_exists.mp (h x (by simp))
    obtain ⟨e', he'⟩ :=
      Option.isSome_iff_exists.mp (ih fun y hy => h y (by simp [hy]))
    simp [seqProcess, he, he']

/-- Every completed per-node trace has exactly one sleep per visit of any
given code. -/
lemma sleeps_eq_visits (env : Env) (c : String) :
    ∀ (fuel : Nat) (code : String) (evts : List Event),
      process env fuel code = some evts →
      countSleeps c evts = countVisits c evts := by
  intro fuel
  induction fuel with
  | zero => intro code evts h; cases h
  | succ n ih =>
    intro code evts h
    rw [process_succ] at h
    split at h
    · cases h; simp [countSleeps, countVisits]
    · split at h
      · split at h
        · cases h
          by_cases hs : env.saveFails code <;>
            simp [hs, countSleeps, countVisits]
        · cases h
        · split at h
          · cases h
          · split at h
            · cases h
            · rename_i data ht v hv urls hurls childEvts hsq
              cases h
              have hrec : countSleeps c childEvts = countVisits c childEvts :=
                seqProcess_rel _ _ (countSleeps_append c) (countVisits_append c)
                  _ _ _ hsq fun x _ e he => ih x e he
              by_cases hs : env.saveFails code <;>
                (simp [hs, countSleeps, countVisits, countSleeps_append,
                  countVisits_append, hrec]; omega)
      · cases h
        simp [countSleeps, countVisits]

/-- A completed per-node trace ends with that node's own sleep: the wait
fires only after everything else in the node's processing, including its
entire subtree. -/
lemma process_getLast? (env : Env) (fuel : Nat) (code : String)
    (evts : List Event) (h : process env fuel code = some evts) :
    evts.getLast? = some (.sleep code) := by
  cases fuel with
  | zero => cases h
  | succ n =>
    rw [process_succ] at h
    split at h
    · cases h; rfl
    · split at h
      · split at h
        · cases h; rfl
        · cases h
        · split at h
          · cases h
          · split at h
            · cases h
            · rename_i childEvts hsq
              cases h
              show ((Event.visit code :: _ :: childEvts) ++ [Event.sleep code]).getLast?
                  = some (Event.sleep code)
              exact List.getLast?_concat _
      · cases h; rfl

lemma children_eq_of_value (env : Env) (code : String) (data v : Json)
    (urls : List String) (hf : env.fetch code = some data)
    (ht : truthy data = true) (hcl : childLookup data = .value v)
    (his : iterStrings v = some urls) :
    children env code = urls.map childCode := by
  simp [children, hf, ht, hcl, his]

lemma children_eq_nil_of_none (env : Env) (code : String)
    (hf : env.fetch code = none) : children env code = [] := by
  simp [children, hf]

lemma children_eq_nil_of_falsy (env : Env) (code : String) (data : Json)
    (hf : env.fetch code = some data) (ht : truthy data = false) :
    children env code = [] := by
  simp [children, hf, ht]

lemma children_eq_nil_of_absent (env : Env) (code : String) (data : Json)
    (hf : env.fetch code = some data) (ht : truthy data = true)
    (hcl : childLookup data = .absent) : children env code = [] := by
  simp [children, hf, ht, hcl]

/-- Each completed per-node trace visits any code `c` exactly once per
bounded-length child-reference path from the processed node to `c`. -/
lemma visits_eq_paths (env : Env) (c : String) :
    ∀ (fuel : Nat) (code : String) (evts : List Event),
      process env fuel code = some evts →
      countVisits c evts = (pathsTo env fuel code c).length := by
  intro fuel
  induction fuel with
  | zero => intro code evts h; cases h
  | succ n ih =>
    intro code evts h
    rw [process_succ] at h
    split at h
    · rename_i hf
      cases h
      simp [countVisits, pathsTo, children_eq_nil_of_none env code hf]
      split <;> simp
    · rename_i od data hf
      split at h
      · rename_i ht
        split at h
        · rename_i hcl
          cases h
          by_cases hs : env.saveFails code <;>
            (simp [hs, countVisits, pathsTo,
              children_eq_nil_of_absent env code data hf ht hcl];
             split <;> simp)
        · cases h
        · rename_i ocl v hcl
          split at h
          · cases h
          · rename_i ous urls his
            split at h
            · cases h
            · rename_i oe childEvts hsq
              cases h
              have hsum := seqProcess_sum (countVisits c) (countVisits_append c)
                (process env n) (fun x => (pathsTo env n x c).length)
                (urls.map childCode) childEvts hsq
                (fun x _ e he => ih x e he)
              by_cases hs : env.saveFails code <;>
                (simp [hs, countVisits, pathsTo,
                  children_eq_of_value env code data v urls hf ht hcl his,
                  List.length_flatten, List.map_map, Function.comp_def,
                  List.length_map, countVisits_append, hsum];
                 split <;> simp)
      · rename_i ht
        cases h
        have ht' : truthy data = false := by
          cases htd : truthy data
          · rfl
          · exact absurd htd ht
        simp [countVisits, pathsTo,
          children_eq_nil_of_falsy env code data hf ht']
        split <;> simp

/-- With well-formed data and a rank function that decreases along the
child-reference edges reachable from `root`, processing any reachable code
completes once the fuel exceeds its rank. -/
lemma process_isSome_of_rank (env : Env) (root : String) (m : String → Nat)
    (hwf : WellFormed env)
    (hm : ∀ b c', Reaches env root b → c' ∈ children env b → m c' < m b) :
    ∀ (fuel : Nat) (code : String), Reaches env root code → m code < fuel →
      (process env fuel code).isSome = true := by
  intro fuel
  induction fuel with
  | zero => intro code _ hlt; omega
  | succ n ih =>
    intro code hr hlt
    rw [process_succ]
    cases hf : env.fetch code with
    | none => simp
    | some data =>
      cases htd : truthy data with
      | false => simp [hf, htd]
      | true =>
        have hwfd := hwf code data hf htd
        cases hcl : childLookup data with
        | error => exact absurd hcl hwfd.1
        | absent => simp [hf, htd, hcl]
        | value v =>
          have hv := hwfd.2 v hcl
          cases his : iterStrings v with
          | none => rw [his] at hv; simp at hv
          | some urls =>
            have hch : children env code = urls.map childCode :=
              children_eq_of_value env code data v urls hf htd hcl his
            have hall : ∀ x ∈ urls.map childCode,
                (process env n x).isSome = true := by
              intro x hx
              have hxc : x ∈ children env code := by rw [hch]; exact hx
              exact ih x (Reaches.step hr hxc)
                (by have := hm code x hr hxc; omega)
            have hseq := seqProcess_isSome (process env n) (urls.map childCode) hall
            obtain ⟨es, hes⟩ := Option.isSome_iff_exists.mp hseq
            simp [hf, htd, hcl, his, hes]

/-- On the cyclic environment the traversal of `A` never completes, at any
recursion depth. -/
lemma cycEnv_diverges : ∀ fuel : Nat, process cycEnv fuel "A" = none := by
  intro fuel
  induction fuel with
  | zero => rfl
  | succ n ih =>
    have h : process cycEnv (n + 1) "A"
        = match seqProcess (process cycEnv n) ["A"] with
          | none => none
          | some childEvts =>
            some (.visit "A" :: .save "A" cycData :: (childEvts ++ [.sleep "A"])) := rfl
    have hseq : seqProcess (process cycEnv n) ["A"] = none := by
      simp [seqProcess, ih]
    rw [h, hseq]

lemma applyWrites_lookup : ∀ (ws : List (String × Json)) (fs : FS) (p : String),
    applyWrites fs ws p = (lastWrite ws p).elim (fs p) some := by
  intro ws
  induction ws with
  | nil => intro fs p; rfl
  | cons w rest ih =>
    intro fs p
    obtain ⟨q, v⟩ := w
    show applyWrites (setFile fs q v) rest p = _
    rw [ih]
    cases hlw : lastWrite rest p with
    | some v' => simp [lastWrite, hlw]
    | none =>
      simp only [lastWrite, hlw, setFile]
      by_cases hq : q = p
      · subst hq; simp
      · have hq' : ¬p = q := fun h => hq h.symm
        simp [hq, hq']

/-- Replaying the same write sequence on top of its own result changes
nothing: every path ends at its last write either way. -/
lemma applyWrites_idem (ws : List (String × Json)) (fs : FS) :
    applyWrites (applyWrites fs ws) ws = applyWrites fs ws := by
  funext p
  rw [applyWrites_lookup ws (applyWrites fs ws) p]
  cases h : lastWrite ws p with
  | some v => rw [applyWrites_lookup ws fs p, h]; rfl
  | none => rfl

/-- The two single-character replacements act pointwise: `.` and `/`
become `_`, every other character is untouched. -/
lemma sanitizeCode_data (code : String) :
    (sanitizeCode code).data
      = code.data.map fun c => if c = '.' ∨ c = '/' then '_' else c := by
  show ((code.data.map fun c => if c = '.' then '_' else c).map
      fun c => if c = '/' then '_' else c) = _
  rw [List.map_map]
  apply List.map_congr_left
  intro c _
  by_cases h1 : c = '.'
  · subst h1; simp
  · by_cases h2 : c = '/'
    · subst h2; simp
    · simp [h1, h2, Function.comp]

lemma asStrings_map_str (us : List String) :
    asStrings (us.map Json.str) = some us := by
  induction us with
  | nil => rfl
  | cons u rest ih => simp [asStrings, asString, ih]


/-! Claim theorems. -/

/-- C1 counterexample: in the spec's end-to-end scenario the run does not
persist three records — codes `A.1` and `B` answer with the falsy empty
object `{}`, so only code `A`'s record is ever saved (one file), contrary
to the claim's "exactly the records for codes A, A.1 and B (three
files)". -/
theorem C1_counterexample :
    mainEvents scenarioEnv 3 = some scenarioTrace
    ∧ (writesOf "icd_data" scenarioTrace).length = 1
    ∧ (∀ d : Json, Event.save "A.1" d ∉ scenarioTrace)
    ∧ (∀ d : Json, Event.save "B" d ∉ scenarioTrace) := by
  refine ⟨rfl, rfl, ?_, ?_⟩ <;>
    (intro d h; simp [scenarioTrace] at h)

/-- C1 (amended): in the spec's end-to-end scenario the run persists
exactly one record — code `A`'s payload; codes `A.1` and `B` return the
empty (falsy) object and are skipped, and the root listing's own payload
(empty-string code) is never persisted. -/
theorem C1_run_output (dir : String) :
    mainEvents scenarioEnv 3 = some scenarioTrace
    ∧ writesOf dir scenarioTrace = [(savePath dir "A", dataA)]
    ∧ ∀ d : Json, Event.save "" d ∉ scenarioTrace := by
  refine ⟨rfl, rfl, ?_⟩
  intro d h
  simp [scenarioTrace] at h

/-- C2: for every completed node processing, the throttle sleep is
performed exactly once per visit of any code — whether its fetch succeeded
or failed — and the node's own sleep is the last event of its processing,
i.e. it fires only after its entire subtree; on the synthetic tree
root→{A,B}, A→{A1,A2}, B leaf, the sleeps occur in the order
A1, A2, A, B, root. -/
theorem C2_postorder_throttle :
    (∀ (env : Env) (fuel : Nat) (code : String) (evts : List Event),
        process env fuel code = some evts →
        (∀ c, countSleeps c evts = countVisits c evts)
        ∧ evts.getLast? = some (.sleep code))
    ∧ (process postEnv 3 "root").map sleepsOf
        = some ["A1", "A2", "A", "B", "root"] := by
  refine ⟨fun env fuel code evts h =>
    ⟨fun c => sleeps_eq_visits env c fuel code evts h,
     process_getLast? env fuel code evts h⟩, rfl⟩

/-- C2 witness: the general part evaluated on the synthetic tree's leaf
`B`. -/
theorem C2_postorder_throttle_witness :
    countSleeps "B"
        [Event.visit "B", Event.save "B" (.obj [("title", .str "b")]), Event.sleep "B"]
      = countVisits "B"
        [Event.visit "B", Event.save "B" (.obj [("title", .str "b")]), Event.sleep "B"]
    ∧ ([Event.visit "B", Event.save "B" (Json.obj [("title", .str "b")]),
        Event.sleep "B"] : List Event).getLast? = some (Event.sleep "B") :=
  ⟨(C2_postorder_throttle.1 postEnv 2 "B" _ rfl).1 "B",
   (C2_postorder_throttle.1 postEnv 2 "B" _ rfl).2⟩

/-- C3: a failed fetch for a node yields exactly a logged fetch error and
the throttle sleep — no children are visited and the run does not crash;
and concretely, with sibling `B` failing, sibling `A`'s fetch, save and
expansion complete unaffected before `B`'s failure is logged. -/
theorem C3_fetch_failure_isolated :
    (∀ (env : Env) (fuel : Nat) (code : String), env.fetch code = none →
        process env (fuel + 1) code
          = some [.visit code, .fetchError code, .sleep code])
    ∧ seqProcess (process isoEnv 2) ["A", "B"]
        = some [.visit "A", .save "A" (.obj [("child", .arr [.str "h/A1"])]),
            .visit "A1", .save "A1" (.obj [("title", .str "x")]), .sleep "A1",
            .sleep "A", .visit "B", .fetchError "B", .sleep "B"] := by
  constructor
  · intro env fuel code h
    rw [process_succ, h]
  · rfl

/-- C3 witness: the general part evaluated at the failing node `B`. -/
theorem C3_fetch_failure_isolated_witness :
    process isoEnv 1 "B"
      = some [Event.visit "B", Event.fetchError "B", Event.sleep "B"] :=
  C3_fetch_failure_isolated.1 isoEnv 0 "B" rfl

/-- C4: when the write for a node raises an I/O error, the error is
logged (a save-error event, not a crash) and the traversal still descends
into the node's children using the in-memory payload: the run is the
children's processing wrapped in the node's visit, save-error and sleep. -/
theorem C4_save_failure_isolated (env : Env) (fuel : Nat) (code : String)
    (data v : Json) (urls : List String)
    (hf : env.fetch code = some data) (ht : truthy data = true)
    (hs : env.saveFails code = true)
    (hcl : childLookup data = .value v) (his : iterStrings v = some urls) :
    process env (fuel + 1) code
      = (seqProcess (process env fuel) (urls.map childCode)).map
          (fun es => .visit code :: .saveError code :: (es ++ [.sleep code])) := by
  rw [process_succ, hf]
  cases hsq : seqProcess (process env fuel) (urls.map childCode) with
  | none => simp [ht, hcl, his, hs, hsq]
  | some es => simp [ht, hcl, his, hs, hsq]

/-- C4 witness: node `X` whose write fails still processes its child
`X1`. -/
theorem C4_save_failure_isolated_witness :
    process saveFailEnv 2 "X"
      = (seqProcess (process saveFailEnv 1) (["h/X1"].map childCode)).map
          (fun es => .visit "X" :: .saveError "X" :: (es ++ [.sleep "X"])) :=
  C4_save_failure_isolated saveFailEnv 1 "X" _ _ ["h/X1"] rfl rfl rfl rfl rfl

/-- C5: `get_root_codes` returns the decoded child codes in listing order
when the root fetch yields a dict with a string-list `child` entry, and
returns exactly the fixed 22-element Roman-numeral fallback on a failed
fetch, a non-dict payload, or a dict without a `child` entry. -/
theorem C5_root_codes :
    (∀ (env : Env) (fields : List (String × Json)) (us : List String),
        env.fetch "" = some (.obj fields) →
        lookupField fields "child" = some (.arr (us.map .str)) →
        get_root_codes env = some (us.map childCode))
    ∧ (∀ env : Env, env.fetch "" = none →
        get_root_codes env = some fallbackRootCodes)
    ∧ (∀ (env : Env) (data : Json), env.fetch "" = some data →
        (∀ fields, data ≠ .obj fields) →
        get_root_codes env = some fallbackRootCodes)
    ∧ (∀ (env : Env) (fields : List (String × Json)),
        env.fetch "" = some (.obj fields) →
        lookupField fields "child" = none →
        get_root_codes env = some fallbackRootCodes)
    ∧ fallbackRootCodes.length = 22
    ∧ fallbackRootCodes
      = ["I", "II", "III", "IV", "V", "VI", "VII", "VIII", "IX", "X", "XI",
         "XII", "XIII", "XIV", "XV", "XVI", "XVII", "XVIII", "XIX", "XX",
         "XXI", "XXII"] := by
  refine ⟨?_, ?_, ?_, ?_, rfl, rfl⟩
  · intro env fields us hf hc
    simp [get_root_codes, hf, hc, iterStrings, asStrings_map_str]
  · intro env hf
    simp [get_root_codes, hf]
  · intro env data hf hnd
    cases data with
    | obj fields => exact absurd rfl (hnd fields)
    | null => simp [get_root_codes, hf]
    | bool b => simp [get_root_codes, hf]
    | num n => simp [get_root_codes, hf]
    | str x => simp [get_root_codes, hf]
    | arr xs => simp [get_root_codes, hf]
  · intro env fields hf hc
    simp [get_root_codes, hf, hc]

/-- C5 witness: the four branches evaluated on concrete environments:
decodable child list (with a percent-escape), failed fetch, non-dict
payload, dict without `child`. -/
theorem C5_root_codes_witness :
    get_root_codes rootEnvList = some (["h/I", "h/II%2E5"].map childCode)
    ∧ get_root_codes rootEnvNone = some fallbackRootCodes
    ∧ get_root_codes rootEnvStr = some fallbackRootCodes
    ∧ get_root_codes rootEnvNoChild = some fallbackRootCodes :=
  ⟨C5_root_codes.1 rootEnvList _ ["h/I", "h/II%2E5"] rfl rfl,
   C5_root_codes.2.1 rootEnvNone rfl,
   C5_root_codes.2.2.1 rootEnvStr (.str "oops") rfl (fun _ h => nomatch h),
   C5_root_codes.2.2.2.1 rootEnvNoChild _ rfl rfl⟩

/-- C6: the derived storage path is `output_dir/icd10_<key>.json` where
the key is the code with every `.` and every `/` replaced by `_` and all
other characters left unchanged, character for character. -/
theorem C6_filename (dir code : String) (hdir : dir ≠ "")
    (hsep : ¬dir.data.getLastD ' ' = '/') :
    savePath dir code = dir ++ "/" ++ ("icd10_" ++ sanitizeCode code ++ ".json")
    ∧ (sanitizeCode code).data
      = code.data.map fun c => if c = '.' ∨ c = '/' then '_' else c := by
  refine ⟨?_, sanitizeCode_data code⟩
  unfold savePath joinPath icdFileName
  rw [if_neg hdir, if_neg hsep]

/-- C6 witness: the default output directory and a code containing both
special characters. -/
theorem C6_filename_witness :
    savePath "icd_data" "A00.1/B"
      = "icd_data" ++ "/" ++ ("icd10_" ++ sanitizeCode "A00.1/B" ++ ".json")
    ∧ (sanitizeCode "A00.1/B").data
      = "A00.1/B".data.map fun c => if c = '.' ∨ c = '/' then '_' else c :=
  C6_filename "icd_data" "A00.1/B" (by decide) (by decide)

/-- C7: a completed crawl writes a fixed sequence of files; replaying the
same environment's run on top of the first run's output directory leaves
the directory byte-identical, because each save overwrites its file. -/
theorem C7_idempotent_rerun (env : Env) (dir : String) (fuel : Nat)
    (evts : List Event) (h : mainEvents env fuel = some evts) :
    ∀ evts', mainEvents env fuel = some evts' →
      applyWrites (applyWrites emptyFS (writesOf dir evts)) (writesOf dir evts')
        = applyWrites emptyFS (writesOf dir evts) := by
  intro evts' h'
  rw [h] at h'
  cases h'
  exact applyWrites_idem (writesOf dir evts) emptyFS

/-- C7 witness: rerunning the end-to-end scenario's crawl over its own
output changes nothing. -/
theorem C7_idempotent_rerun_witness :
    applyWrites (applyWrites emptyFS (writesOf "icd_data" scenarioTrace))
        (writesOf "icd_data" scenarioTrace)
      = applyWrites emptyFS (writesOf "icd_data" scenarioTrace) :=
  C7_idempotent_rerun scenarioEnv "icd_data" 3 scenarioTrace rfl scenarioTrace rfl

/-- C8: a successfully fetched but falsy payload (such as `{}`) is treated
like a failed fetch as far as output goes: nothing is saved, no children
are expanded, and only the throttle sleep follows the visit. -/
theorem C8_falsy_skipped (env : Env) (fuel : Nat) (code : String) (data : Json)
    (hf : env.fetch code = some data) (ht : truthy data = false) :
    process env (fuel + 1) code = some [.visit code, .sleep code] := by
  rw [process_succ, hf]
  simp [ht]

/-- C8 witness: the empty JSON object `{}` for code `E`. -/
theorem C8_falsy_skipped_witness :
    process emptyPayloadEnv 5 "E" = some [Event.visit "E", Event.sleep "E"] :=
  C8_falsy_skipped emptyPayloadEnv 4 "E" (.obj []) rfl rfl

/-- C9: the sanitization is not injective — the distinct codes `A.1`,
`A/1` and `A_1` share one storage key, so their files collide; in a single
run visiting both `A.1` and `A/1`, the later record silently overwrites
the earlier one at the shared path. -/
theorem C9_collision :
    ("A.1" ≠ "A/1" ∧ sanitizeCode "A.1" = sanitizeCode "A/1")
    ∧ ("A.1" ≠ "A_1" ∧ sanitizeCode "A.1" = sanitizeCode "A_1")
    ∧ savePath "icd_data" "A.1" = savePath "icd_data" "A/1"
    ∧ (process collideEnv 2 "P").map
        (fun tr => applyWrites emptyFS (writesOf "icd_data" tr)
          (savePath "icd_data" "A.1"))
      = some (some dTwo) :=
  ⟨⟨by decide, by decide⟩, ⟨by decide, by decide⟩, by decide, rfl⟩

/-- C10: with well-formed payloads and a rank function witnessing that the
child-reference graph reachable from the root is finite and acyclic, the
traversal completes at some recursion depth; each code is visited exactly
once per distinct child-reference path from the processed root; and on the
cyclic environment the traversal completes at no depth. -/
theorem C10_termination :
    (∀ (env : Env) (root : String) (m : String → Nat),
        WellFormed env →
        (∀ b c', Reaches env root b → c' ∈ children env b → m c' < m b) →
        ∃ fuel : Nat, (process env fuel root).isSome = true)
    ∧ (∀ (env : Env) (fuel : Nat) (root c : String) (evts : List Event),
        process env fuel root = some evts →
        countVisits c evts = (pathsTo env fuel root c).length)
    ∧ (∀ fuel : Nat, process cycEnv fuel "A" = none) := by
  refine ⟨?_, ?_, cycEnv_diverges⟩
  · intro env root m hwf hm
    exact ⟨m root + 1,
      process_isSome_of_rank env root m hwf hm (m root + 1) root .refl
        (by omega)⟩
  · intro env fuel root c evts h
    exact visits_eq_paths env c fuel root evts h

/-- C10 witness: termination on the single-leaf environment (rank
constantly zero) and the visit-per-path count evaluated there. -/
theorem C10_termination_witness :
    (∃ fuel : Nat, (process leafEnv fuel "R").isSome = true)
    ∧ countVisits "R"
        [Event.visit "R", Event.save "R" (.obj [("title", .str "r")]),
         Event.sleep "R"]
      = (pathsTo leafEnv 1 "R" "R").length :=
  ⟨C10_termination.1 leafEnv "R" (fun _ => 0)
    (by
      intro code data h ht
      by_cases hc : code = "R"
      · subst hc
        have hd : data = Json.obj [("title", .str "r")] := by
          simpa [leafEnv] using h.symm
        subst hd
        constructor
        · intro hcl
          simp [childLookup, lookupField] at hcl
        · intro v hv
          simp [childLookup, lookupField] at hv
      · simp [leafEnv, hc] at h)
    (by
      intro b c' _ hmem
      exfalso
      by_cases hb : b = "R"
      · subst hb
        rw [children_eq_nil_of_absent leafEnv "R" (Json.obj [("title", .str "r")])
          rfl rfl rfl] at hmem
        exact (List.not_mem_nil c') hmem
      · rw [children_eq_nil_of_none leafEnv b (by simp [leafEnv, hb])] at hmem
        exact (List.not_mem_nil c') hmem),
   C10_termination.2.1 leafEnv 1 "R" "R" _ rfl⟩

end ICD10
